import Mathlib

/-!
Shallow embedding of the `mitosis` genetic-algorithm library
(modules `generate.py`, `select.py`, `crossover.py`) and proofs about it.

Modelling conventions:
* Python ints are `ℤ` (counts that the claims keep non-negative are `ℕ`;
  where Python's `range` of a negative bound yields an empty loop, the
  truncated `ℕ` subtraction reproduces that behaviour, and where the sign
  matters, as in the stochastic-universal-sampling sample size, `ℤ` is used).
* Python floats are `ℚ` (exact arithmetic; no claim here depends on rounding).
* The global `random` generator is modelled by an explicit state `RState`
  holding the stream of draws: `floats` are the successive results of
  `random.random()` (each lies in `[0,1)`), `idxs` are the successive index
  draws consumed by `random.sample`, `random.shuffle` and `random.choices`.
  "For every seed" in the claims becomes "for every draw stream".
  `random.seed(...)` resets the stream and is absorbed into the choice of the
  initial `RState`, so it does not appear as an operation.
* Fallible Python code returns `Except PyErr`; each `PyErr` constructor is
  the Python exception class raised.
-/

namespace Mitosis

/-- The Python exception classes raised by the code under study. -/
inductive PyErr where
  | typeError
  | valueError
  | indexError
  | zeroDivisionError
  | notImplementedError
deriving DecidableEq, Repr

/-- State of the global pseudorandom generator: the not-yet-consumed draws.
`floats` feeds `random.random()`, `idxs` feeds the index choices made inside
`random.sample`, `random.shuffle` and `random.choices`. -/
structure RState where
  floats : List ℚ
  idxs : List ℕ
deriving DecidableEq, Repr

/-- Draw the next `random.random()` value (0 once the stream is exhausted;
every hypothesis about draws is stated over `floats`, and 0 also lies in
`[0,1)`, so exhaustion never leaves the modelled range). -/
def nextFloat (s : RState) : ℚ × RState :=
  (s.floats.headD 0, ⟨s.floats.tail, s.idxs⟩)

/-- Draw the next index choice. -/
def nextIdx (s : RState) : ℕ × RState :=
  (s.idxs.headD 0, ⟨s.floats, s.idxs.tail⟩)

/-- A chromosome: Python `list<int>`. -/
abbrev Chromosome := List ℤ

/-- An evaluated chromosome: Python `tuple<list<int>, float>`. -/
abbrev EvalChrom := Chromosome × ℚ

/-- A parent pair. -/
abbrev Parents := Chromosome × Chromosome

/-! ### Primitives of the `random` module -/

/-- Core of `random.sample`: draw `k` elements without replacement, each pick
taking one index draw into the remaining pool (the oracle stream can realise
any without-replacement sample).  Caller guarantees `k ≤ pool.length`; on an
empty pool the remaining picks are skipped (unreachable under the guard). -/
def sampleAux [Inhabited α] : ℕ → List α → RState → List α × RState
  | 0, _, s => ([], s)
  | k + 1, pool, s =>
    let (j, s1) := nextIdx s
    match pool with
    | [] => ([], s1)
    | p :: ps =>
      let i := j % (p :: ps).length
      let x := (p :: ps).getD i default
      let (rest, s2) := sampleAux k ((p :: ps).eraseIdx i) s1
      (x :: rest, s2)

/-- `random.sample(population, k)`: raises `ValueError` when the requested
sample is larger than the population. -/
def pySample [Inhabited α] (population : List α) (k : ℕ) (s : RState) :
    Except PyErr (List α × RState) :=
  if population.length < k then .error .valueError
  else .ok (sampleAux k population s)

/-- `random.choices(pool, k=k)`: `k` independent draws with replacement. -/
def pyChoices [Inhabited α] (pool : List α) : ℕ → RState → List α × RState
  | 0, s => ([], s)
  | k + 1, s =>
    let (j, s1) := nextIdx s
    let x := pool.getD (j % pool.length) default
    let (rest, s2) := pyChoices pool k s1
    (x :: rest, s2)

/-- Swap two positions of a list (both in bounds at every use site). -/
def listSwap [Inhabited α] (l : List α) (a b : ℕ) : List α :=
  (l.set a (l.getD b default)).set b (l.getD a default)

/-- Fisher–Yates loop of `random.shuffle`: `i` runs down from `len - 1` to 1,
swapping position `i` with a drawn position `j ≤ i`. -/
def shuffleAux [Inhabited α] : ℕ → List α → RState → List α × RState
  | 0, l, s => (l, s)
  | i + 1, l, s =>
    let (j, s1) := nextIdx s
    shuffleAux i (listSwap l (i + 1) (j % (i + 2))) s1

/-- `random.shuffle(x)` (functionally): permute the list in place. -/
def pyShuffle [Inhabited α] (l : List α) (s : RState) : List α × RState :=
  match l.length with
  | 0 => (l, s)
  | n + 1 => shuffleAux n l s

/-! ### `generate.py` -/

/-- `generate(searchspace_size, population_size, random_seed)` from
`generate.py`, translated as written: the body ignores both size parameters,
draws `random.choices(['0','1'], k=112)` and joins each (one-character)
genotype back into a string. -/
def generate (searchspace_size population_size : ℕ) (s : RState) :
    List String × RState :=
  let (population, s1) := pyChoices ["0", "1"] 112 s
  (population.map fun genotype =>
    String.join (genotype.data.map fun c => String.mk [c]), s1)

/-! ### `select.py` -/

/-- The selection methods of `select.py`. -/
inductive SelectionMethod where
  | TOURNAMENT
  | STOCHASTIC
  | FITNESS
  | SIGMA
  | BOLTZMANN
  | RANK
deriving DecidableEq, Repr

/-- Stable insert (a later element goes after earlier equal-key elements). -/
def insertByScore (x : EvalChrom) : List EvalChrom → List EvalChrom
  | [] => [x]
  | y :: ys => if x.2 < y.2 then x :: y :: ys else y :: insertByScore x ys

/-- Python's `tournament.sort(key=lambda ec: ec[1])`: a stable ascending sort
by fitness score (every stable sort with this key computes this result). -/
def pySortByScore (l : List EvalChrom) : List EvalChrom :=
  l.foldl (fun acc x => insertByScore x acc) []

/-- `_tournament(evaluated_population, tournament_size, previous_winner)`:
sample `tournament_size` entrants without replacement, sort them by ascending
score, take the first entry's chromosome as winner, and fall back to the
second entry when the winner equals `previous_winner`.  Indexing an
undersized tournament raises `IndexError`, as `tournament[0]`/`tournament[1]`
do in Python. -/
def _tournament (evaluated_population : List EvalChrom) (tournament_size : ℕ)
    (previous_winner : Option Chromosome) (s : RState) :
    Except PyErr (Chromosome × RState) :=
  match pySample evaluated_population tournament_size s with
  | .error e => .error e
  | .ok (tournament0, s1) =>
    match pySortByScore tournament0 with
    | [] => .error .indexError
    | t0 :: rest =>
      let winner := t0.1
      if previous_winner = some winner then
        match rest with
        | [] => .error .indexError
        | t1 :: _ => .ok (t1.1, s1)
      else .ok (winner, s1)

/-- The `for _ in range(len(evaluated_population) - num_elites)` loop of
`tournament_selection`, on the remaining iteration count.  As in the source,
each iteration runs two tournaments and `previous_winner` is never passed
(so `_tournament` receives its default `None`). -/
def tournLoop (evaluated_population : List EvalChrom) (tournament_size : ℕ) :
    ℕ → RState → Except PyErr (List (Chromosome × Chromosome) × RState)
  | 0, s => .ok ([], s)
  | n + 1, s =>
    match _tournament evaluated_population tournament_size none s with
    | .error e => .error e
    | .ok (parent_one, s1) =>
      match _tournament evaluated_population tournament_size none s1 with
      | .error e => .error e
      | .ok (parent_two, s2) =>
        match tournLoop evaluated_population tournament_size n s2 with
        | .error e => .error e
        | .ok (pairs, s3) => .ok ((parent_one, parent_two) :: pairs, s3)

/-- `tournament_selection(evaluated_population, random_seed, num_elites,
tournament_size)`: one pair per loop iteration; `range` of a negative bound
is empty, which the truncated `ℕ` subtraction reproduces. -/
def tournament_selection (evaluated_population : List EvalChrom)
    (num_elites tournament_size : ℕ) (s : RState) :
    Except PyErr (List (Chromosome × Chromosome) × RState) :=
  tournLoop evaluated_population tournament_size
    (evaluated_population.length - num_elites) s

/-- The accumulation loop of `_calculate_accumulated_fitness`, carrying the
running `accumulated_fitness`. -/
def accumFitness (accumulated_fitness : ℚ) : List EvalChrom → List EvalChrom
  | [] => []
  | chromosome :: rest =>
    (chromosome.1, accumulated_fitness + chromosome.2) ::
      accumFitness (accumulated_fitness + chromosome.2) rest

/-- `_calculate_accumulated_fitness(evaluated_population)`. -/
def _calculate_accumulated_fitness (evaluated_population : List EvalChrom) :
    List EvalChrom :=
  accumFitness 0 evaluated_population

/-- The inner `while fitness_ruler[chromosome_index][1] <
target_cumulative_fitness` loop of `_stochastic_universal_sample`, starting
from index `ci`; running off the end of the ruler raises `IndexError`. -/
def scanFrom (fitness_ruler : List EvalChrom) (target : ℚ) (ci : ℕ) :
    Except PyErr (ℕ × EvalChrom) :=
  match h : fitness_ruler.get? ci with
  | none => .error .indexError
  | some entry =>
    if entry.2 < target then scanFrom fitness_ruler target (ci + 1)
    else .ok (ci, entry)
termination_by fitness_ruler.length - ci
decreasing_by
  have hci : ci < fitness_ruler.length := (List.get?_eq_some.mp h).1
  omega

/-- The outer `while len(sample) < sample_size` loop of
`_stochastic_universal_sample`, on the remaining number of picks; the ruler
index `ci` and the moving `target` persist across iterations, as in the
source. -/
def susLoop (fitness_ruler : List EvalChrom) (distance : ℚ) :
    ℕ → ℚ → ℕ → Except PyErr (List Chromosome)
  | 0, _, _ => .ok []
  | n + 1, target, ci =>
    match scanFrom fitness_ruler target ci with
    | .error e => .error e
    | .ok (ci1, entry) =>
      match susLoop fitness_ruler distance n (target + distance) ci1 with
      | .error e => .error e
      | .ok rest => .ok (entry.1 :: rest)

/-- `_stochastic_universal_sample(fitness_ruler, distance, sample_size)`:
the start offset is `random.random() * distance`, the walk picks
`sample_size` entries (none when `sample_size ≤ 0`, since the `while` guard
is false immediately), and the sample is shuffled before being returned. -/
def _stochastic_universal_sample (fitness_ruler : List EvalChrom)
    (distance : ℚ) (sample_size : ℤ) (s : RState) :
    Except PyErr (List Chromosome × RState) :=
  let (r, s1) := nextFloat s
  let target_cumulative_fitness := r * distance
  match susLoop fitness_ruler distance sample_size.toNat
      target_cumulative_fitness 0 with
  | .error e => .error e
  | .ok sample =>
    let (shuffled, s2) := pyShuffle sample s1
    .ok (shuffled, s2)

/-- `stochastic_universal_sampling_selection(evaluated_population,
random_seed, num_elites)`: `fitness_ruler[-1]` on an empty ruler raises
`IndexError`; `total_fitness / sample_size` raises `ZeroDivisionError` when
`sample_size` is zero; two samples are drawn from the shared ruler and zipped
positionally into pairs. -/
def stochastic_universal_sampling_selection
    (evaluated_population : List EvalChrom) (num_elites : ℕ) (s : RState) :
    Except PyErr (List (Chromosome × Chromosome) × RState) :=
  let fitness_ruler := _calculate_accumulated_fitness evaluated_population
  match fitness_ruler.getLast? with
  | none => .error .indexError
  | some lastEntry =>
    let total_fitness := lastEntry.2
    let sample_size : ℤ :=
      (evaluated_population.length : ℤ) - (num_elites : ℤ)
    if sample_size = 0 then .error .zeroDivisionError
    else
      let distance := total_fitness / (sample_size : ℚ)
      match _stochastic_universal_sample fitness_ruler distance sample_size
          s with
      | .error e => .error e
      | .ok (parent_sample_one, s1) =>
        match _stochastic_universal_sample fitness_ruler distance sample_size
            s1 with
        | .error e => .error e
        | .ok (parent_sample_two, s2) =>
          .ok (parent_sample_one.zip parent_sample_two, s2)

/-- `population, selection_probability = zip(*evaluated_population)`:
unpacking `zip()` of an empty population raises `ValueError` ("not enough
values to unpack"); otherwise it yields the chromosomes and the scores. -/
def pyUnpackZip (evaluated_population : List EvalChrom) :
    Except PyErr (List Chromosome × List ℚ) :=
  match evaluated_population with
  | [] => .error .valueError
  | _ :: _ => .ok evaluated_population.unzip

/-- The expression `list(evaluated_population) - num_elites` appearing in the
loop bounds of `fitness_proportionate_selection` and
`sigma_scaling_selection`: in Python 3, subtracting an int from a list is
unsupported and raises `TypeError`, so the expression has no value. -/
def pyListSubInt (l : List EvalChrom) (n : ℕ) : Except PyErr Empty :=
  .error .typeError

/-- `fitness_proportionate_selection(evaluated_population, random_seed,
num_elites)`: after normalising the scores, the loop header evaluates
`range(list(evaluated_population) - num_elites)`, which raises `TypeError`
before any pair is drawn; the `np.random.choice` body is unreachable. -/
def fitness_proportionate_selection (evaluated_population : List EvalChrom)
    (num_elites : ℕ) (s : RState) :
    Except PyErr (List (Chromosome × Chromosome) × RState) :=
  match pyUnpackZip evaluated_population with
  | .error e => .error e
  | .ok (population, scores) =>
    let selection_probability := scores.map fun f => f / scores.sum
    match pyListSubInt evaluated_population num_elites with
    | .error e => .error e
    | .ok k => k.elim

/-- `np.mean` of the scores. -/
def npMean (scores : List ℚ) : ℚ := scores.sum / scores.length

/-- `np.std(scores) == 0` holds exactly when the variance is zero; the test
is modelled on the (rational) variance since the square root changes nothing
about its vanishing. -/
def npVarianceIsZero (scores : List ℚ) : Bool :=
  (scores.map fun f => (f - npMean scores) ^ 2).sum = 0

/-- `sigma_scaling_selection(evaluated_population, random_seed, num_elites)`:
the scores are sigma-scaled (the scaled values involve the irrational
standard deviation and are not modelled further, because the loop header
`range(list(evaluated_population) - num_elites)` raises `TypeError` before
they are ever used, exactly as in `fitness_proportionate_selection`). -/
def sigma_scaling_selection (evaluated_population : List EvalChrom)
    (num_elites : ℕ) (s : RState) :
    Except PyErr (List (Chromosome × Chromosome) × RState) :=
  match pyUnpackZip evaluated_population with
  | .error e => .error e
  | .ok (population, scores) =>
    let std_is_zero := npVarianceIsZero scores
    match pyListSubInt evaluated_population num_elites with
    | .error e => .error e
    | .ok k => k.elim

/-- `select(evaluated_population, random_seed, num_elites, method,
tournament_size)`: dispatch on the selection method; the unimplemented
variants raise `NotImplementedError`. -/
def select (evaluated_population : List EvalChrom) (num_elites : ℕ)
    (method : SelectionMethod) (tournament_size : ℕ) (s : RState) :
    Except PyErr (List (Chromosome × Chromosome) × RState) :=
  match method with
  | .TOURNAMENT =>
    tournament_selection evaluated_population num_elites tournament_size s
  | .FITNESS =>
    fitness_proportionate_selection evaluated_population num_elites s
  | .STOCHASTIC =>
    stochastic_universal_sampling_selection evaluated_population num_elites s
  | .SIGMA => sigma_scaling_selection evaluated_population num_elites s
  | _ => .error .notImplementedError

/-! ### `crossover.py` -/

/-- Dynamically-typed Python values, needed because the recursive call inside
`n_point_crossover` feeds it arguments of shifting runtime types. -/
inductive PyVal where
  | int (n : ℤ)
  | float (q : ℚ)
  | list (xs : List PyVal)
  | tuple (xs : List PyVal)
deriving Repr

/-- A chromosome as the Python value `list<int>`. -/
def encodeChrom (c : Chromosome) : PyVal :=
  .list (c.map PyVal.int)

mutual

/-- `n_point_crossover(parent_pairs, random_seed, num_points, mixing_ratio)`
translated as written: the loop body calls `n_point_crossover(parent_pair,
num_points, mixing_ratio)` (the function itself, with shifted positional
arguments and `mixing_ratio` defaulting to 0.5) instead of
`_n_point_crossover_one_pair`; iterating over an int or float raises
`TypeError`.  No random draw is ever consumed before that failure, so the
state is not threaded. -/
def n_point_crossover :
    PyVal → PyVal → PyVal → PyVal → Except PyErr PyVal
  | .int _, _, _, _ => .error .typeError
  | .float _, _, _, _ => .error .typeError
  | .list xs, _, num_points, mixing_ratio =>
    match npcLoop xs num_points mixing_ratio with
    | .error e => .error e
    | .ok children => .ok (.list children)
  | .tuple xs, _, num_points, mixing_ratio =>
    match npcLoop xs num_points mixing_ratio with
    | .error e => .error e
    | .ok children => .ok (.list children)

/-- The `for parent_pair in parent_pairs` loop of `n_point_crossover`, whose
body performs the self-call with shifted arguments. -/
def npcLoop : List PyVal → PyVal → PyVal → Except PyErr (List PyVal)
  | [], _, _ => .ok []
  | parent_pair :: rest, num_points, mixing_ratio =>
    match n_point_crossover parent_pair num_points mixing_ratio
        (.float (1 / 2)) with
    | .error e => .error e
    | .ok child =>
      match npcLoop rest num_points mixing_ratio with
      | .error e => .error e
      | .ok children => .ok (child :: children)

end

/-- The guard expression `num_points < parent_one` of
`_n_point_crossover_one_pair`: comparing an int with a list is unsupported in
Python 3 and raises `TypeError`, so the expression has no value. -/
def pyLtIntList (num_points : ℕ) (parent_one : Chromosome) :
    Except PyErr Bool :=
  .error .typeError

/-- The `for index in range(len(slice_indices) - 1)` loop of
`_n_point_crossover_one_pair`: each adjacent index pair delimits a slice
taken from parent one when `random.random() < mixing_ratio` and from parent
two otherwise, and the slices are concatenated. -/
def npcBuild (parent_one parent_two : Chromosome) (mixing_ratio : ℚ) :
    List ℕ → RState → Chromosome × RState
  | a :: b :: rest, s =>
    let (r, s1) := nextFloat s
    let chromosome_slice :=
      if r < mixing_ratio then (parent_one.drop a).take (b - a)
      else (parent_two.drop a).take (b - a)
    let (restChild, s2) := npcBuild parent_one parent_two mixing_ratio
      (b :: rest) s1
    (chromosome_slice ++ restChild, s2)
  | _, s => ([], s)

/-- `_n_point_crossover_one_pair(parent_pair, num_points, mixing_ratio)`
translated as written: the guard compares `num_points` with the *list*
`parent_one` (a `TypeError`), so the slice construction below the guard is
unreachable; it is nonetheless translated (`random.sample` over
`range(1, chromosome_length)` for the cut points, then the slice loop). -/
def _n_point_crossover_one_pair (parent_pair : Parents) (num_points : ℕ)
    (mixing_ratio : ℚ) (s : RState) : Except PyErr (Chromosome × RState) :=
  let parent_one := parent_pair.1
  let parent_two := parent_pair.2
  let chromosome_length := parent_one.length
  match pyLtIntList num_points parent_one with
  | .error e => .error e
  | .ok lt =>
    if ¬ lt then .error .valueError
    else
      match pySample (List.range' 1 (chromosome_length - 1)) num_points
          s with
      | .error e => .error e
      | .ok (mids, s1) =>
        let slice_indices := 0 :: mids ++ [chromosome_length]
        .ok (npcBuild parent_one parent_two mixing_ratio slice_indices s1)

/-- The `for index in range(len(parent_one))` loop of
`_uniform_crossover_one_pair`: one `random.random()` draw per position; the
gene is read from parent one below the mixing ratio and from parent two
otherwise (`parent_two[index]` raises `IndexError` when out of bounds). -/
def uniformGo (parent_two : Chromosome) (mixing_ratio : ℚ) :
    Chromosome → ℕ → RState → Except PyErr (Chromosome × RState)
  | [], _, s => .ok ([], s)
  | g :: gs, index, s =>
    let (r, s1) := nextFloat s
    if r < mixing_ratio then
      match uniformGo parent_two mixing_ratio gs (index + 1) s1 with
      | .error e => .error e
      | .ok (rest, s2) => .ok (g :: rest, s2)
    else
      match parent_two.get? index with
      | none => .error .indexError
      | some g2 =>
        match uniformGo parent_two mixing_ratio gs (index + 1) s1 with
        | .error e => .error e
        | .ok (rest, s2) => .ok (g2 :: rest, s2)

/-- `_uniform_crossover_one_pair(parent_pair, mixing_ratio)`. -/
def _uniform_crossover_one_pair (parent_pair : Parents) (mixing_ratio : ℚ)
    (s : RState) : Except PyErr (Chromosome × RState) :=
  uniformGo parent_pair.2 mixing_ratio parent_pair.1 0 s

/-- `uniform_crossover(parent_pairs, random_seed, mixing_ratio)`: one child
per parent pair, threading the random stream through the pairs in order. -/
def uniform_crossover (parent_pairs : List Parents) (mixing_ratio : ℚ)
    (s : RState) : Except PyErr (List Chromosome × RState) :=
  match parent_pairs with
  | [] => .ok ([], s)
  | parent_pair :: rest =>
    match _uniform_crossover_one_pair parent_pair mixing_ratio s with
    | .error e => .error e
    | .ok (child, s1) =>
      match uniform_crossover rest mixing_ratio s1 with
      | .error e => .error e
      | .ok (children, s2) => .ok (child :: children, s2)

/-! ### Concrete inputs used by several theorems -/

/-- A two-member evaluated population with distinct scores. -/
def twoPop : List EvalChrom := [([0], (1 : ℚ)), ([1], (2 : ℚ))]

/-- A one-member evaluated population. -/
def onePop : List EvalChrom := [([0], (1 : ℚ))]

/-- The exhausted draw stream (every further draw is the default 0). -/
def emptyDraws : RState := ⟨[], []⟩

/-! ### Helper lemmas -/

lemma pyChoices_length [Inhabited α] (pool : List α) :
    ∀ (k : ℕ) (s : RState), ((pyChoices pool k s).1).length = k := by
  intro k
  induction k with
  | zero => intro s; simp [pyChoices]
  | succ k ih => intro s; simp [pyChoices, ih]

lemma pyChoices_01 :
    ∀ (k : ℕ) (s : RState),
      ∀ x ∈ (pyChoices (["0", "1"] : List String) k s).1,
        x = "0" ∨ x = "1" := by
  intro k
  induction k with
  | zero => intro s; simp [pyChoices]
  | succ k ih =>
    intro s x hx
    simp only [pyChoices, List.mem_cons] at hx
    rcases hx with hx | hx
    · rcases Nat.mod_two_eq_zero_or_one (nextIdx s).1 with h | h <;>
        simp [hx, h, List.getD]
    · exact ih _ x hx

/-! ### Claim theorems -/

/-- C1: the claim says every supported selection method returns
`size − numElites` parent pairs, but for the Fitness-Proportionate and
Sigma-Scaling methods the loop bound `range(list(evaluated_population) -
num_elites)` raises `TypeError` on every non-empty population (and unpacking
`zip(*[])` raises `ValueError` on the empty one), so `select` always signals
an error instead of returning pairs for these two methods. -/
theorem C1_fitness_sigma_always_error (pop : List EvalChrom) (ne ts : ℕ)
    (s : RState) :
    (∃ e, select pop ne .FITNESS ts s = .error e) ∧
    (∃ e, select pop ne .SIGMA ts s = .error e) := by
  cases pop with
  | nil => exact ⟨⟨.valueError, rfl⟩, ⟨.valueError, rfl⟩⟩
  | cons h t => exact ⟨⟨.typeError, rfl⟩, ⟨.typeError, rfl⟩⟩

/-- C2: the claim (and the docstring) say the tournament winner has the
highest score among the sampled individuals, but `_tournament` sorts the
sample by ascending score and takes the first entry: on the population
`[([0], 1), ([1], 2)]` with a full tournament of size 2, the winner is `[0]`
with score 1 even though the sampled individual `[1]` scores 2 > 1. -/
theorem C2_tournament_winner_has_lowest_score :
    _tournament twoPop 2 none emptyDraws = .ok ([0], emptyDraws) ∧
    ([1], (2 : ℚ)) ∈ twoPop ∧ (1 : ℚ) < 2 :=
  ⟨rfl, by decide, by norm_num⟩

/-- C3: the claim says the previous-winner guard is applied across the two
tournaments of each pair, but `tournament_selection` never passes the first
winner to the second `_tournament` call (the parameter stays `None`): on
`[([0], 1), ([1], 2)]` with `num_elites = 1` and full tournaments of size 2,
both tournaments are won by `[0]` and the produced pair is `([0], [0])`
instead of falling back to the runner-up `[1]`. -/
theorem C3_previous_winner_guard_not_applied :
    tournament_selection twoPop 1 2 emptyDraws
      = .ok ([([0], [0])], emptyDraws) := rfl

/-- C4: the claim says `generate(m, n, seed)` returns `n` chromosomes of
length `m` with genes in {0,1}; the code ignores both size parameters and
always returns the 112 one-character strings drawn by
`random.choices(['0','1'], k=112)`. -/
theorem C4_generate_ignores_sizes (m n : ℕ) (s : RState) :
    ((generate m n s).1).length = 112 ∧
    ((generate m n s).1.all fun g => g == "0" || g == "1") = true := by
  constructor
  · simp [generate, pyChoices_length]
  · rw [List.all_eq_true]
    intro x hx
    simp only [generate, List.mem_map] at hx
    obtain ⟨g, hg, hgx⟩ := hx
    rcases pyChoices_01 112 s g hg with h | h <;>
      · subst h
        rw [← hgx]
        decide

/-- C6: the claim says n-point crossover on the pair
`([1,1,1,1], [0,0,0,0])` with `numPoints = 1`, `mixingRatio = 1.0` returns
`[1,1,1,1]` for every seed; but `n_point_crossover` calls itself (with
shifted positional arguments) instead of `_n_point_crossover_one_pair`, so
it recurses through the pair's nested structure until it iterates over an
int and raises `TypeError`, for every seed. -/
theorem C6_n_point_crossover_raises (seed : PyVal) :
    n_point_crossover
      (.list [.tuple [encodeChrom [1, 1, 1, 1], encodeChrom [0, 0, 0, 0]]])
      seed (.int 1) (.float 1) = .error .typeError := by
  simp [n_point_crossover, npcLoop, encodeChrom]

/-- C7: the claim says `_n_point_crossover_one_pair` fails exactly when
`numPoints ≥ chromosome length` and otherwise produces a child; but its
guard evaluates `num_points < parent_one`, an int-list comparison that
raises `TypeError` in Python 3, so the function fails on every input —
including every `numPoints < length` — and never with the intended
`ValueError`. -/
theorem C7_n_point_one_pair_always_typeError (pair : Parents)
    (num_points : ℕ) (mixing_ratio : ℚ) (s : RState) :
    _n_point_crossover_one_pair pair num_points mixing_ratio s
      = .error .typeError := rfl

/-- Counterexample to C8: on the one-member population `[([0], 1)]` with
`num_elites = 3` and `tournament_size = 5` — both exceeding the population
size — `select` with the tournament method returns the empty pair list
without signalling any error, because the pair loop runs
`len(population) - num_elites ≤ 0` times and `random.sample` is never
reached. -/
theorem C8_counterexample :
    select onePop 3 .TOURNAMENT 5 emptyDraws = .ok ([], emptyDraws) := rfl

/-- C8 (amended): with the tournament method, `select` fails with the
invalid-argument signal (`ValueError`, raised by `random.sample`) whenever
`tournament_size` exceeds the population size *and* at least one pair is
requested (`num_elites` below the population size); when `num_elites`
exceeds the population size the pair loop is empty and `select` returns an
empty pair list without signalling. -/
theorem C8_amended_tournament_errors (pop : List EvalChrom) (ne ts : ℕ)
    (s : RState) :
    (ne < pop.length → pop.length < ts →
      select pop ne .TOURNAMENT ts s = .error .valueError) ∧
    (pop.length < ne → select pop ne .TOURNAMENT ts s = .ok ([], s)) := by
  constructor
  · intro h1 h2
    obtain ⟨k, hk⟩ : ∃ k, pop.length - ne = k + 1 :=
      ⟨pop.length - ne - 1, by omega⟩
    simp [select, tournament_selection, hk, tournLoop, _tournament,
      pySample, h2]
  · intro h
    have hk : pop.length - ne = 0 := by omega
    simp [select, tournament_selection, hk, tournLoop]

/-- Witness for the amended C8, at concrete inputs. -/
theorem C8_amended_tournament_errors_witness :
    select onePop 0 .TOURNAMENT 5 emptyDraws = .error .valueError ∧
    select onePop 3 .TOURNAMENT 1 emptyDraws = .ok ([], emptyDraws) :=
  ⟨(C8_amended_tournament_errors onePop 0 5 emptyDraws).1 (by decide)
      (by decide),
   (C8_amended_tournament_errors onePop 3 1 emptyDraws).2 (by decide)⟩

lemma uniformGo_zero (p2 : Chromosome) :
    ∀ (p1 : Chromosome) (i : ℕ) (s : RState),
      (∀ r ∈ s.floats, 0 ≤ r) → i + p1.length = p2.length →
      uniformGo p2 0 p1 i s
        = .ok (p2.drop i, ⟨s.floats.drop p1.length, s.idxs⟩) := by
  intro p1
  induction p1 with
  | nil =>
    intro i s _ hlen
    simp only [List.length_nil, Nat.add_zero] at hlen
    subst hlen
    simp [uniformGo, List.drop_length]
  | cons g gs ih =>
    intro i s hfl hlen
    have hr : 0 ≤ s.floats.headD 0 := by
      cases h : s.floats with
      | nil => simp
      | cons a t => exact (hfl a (by simp [h]))
    have hi : i < p2.length := by simp at hlen; omega
    have hget : p2.get? i = some p2[i] := by
      rw [List.get?_eq_getElem?, List.getElem?_eq_getElem hi]
    have htl : ∀ r ∈ s.floats.tail, 0 ≤ r :=
      fun r hr2 => hfl r (List.tail_subset _ hr2)
    have hrec := ih (i + 1) ⟨s.floats.tail, s.idxs⟩ htl
      (by simp at hlen ⊢; omega)
    simp only [uniformGo, nextFloat]
    rw [if_neg (not_lt.mpr hr), hget]
    simp only [hrec]
    rw [← List.drop_eq_getElem_cons hi]
    rw [← List.drop_one, List.drop_drop]
    simp [Nat.add_comm]

lemma uniformGo_spec (p2 : Chromosome) (ratio : ℚ) :
    ∀ (p1 : Chromosome) (i : ℕ) (s : RState), i + p1.length ≤ p2.length →
    ∃ child s1, uniformGo p2 ratio p1 i s = .ok (child, s1) ∧
      child.length = p1.length ∧
      ∀ j, j < p1.length →
        (child.get? j = p1.get? j ∨ child.get? j = p2.get? (i + j)) := by
  intro p1
  induction p1 with
  | nil =>
    intro i s _
    exact ⟨[], s, rfl, rfl, fun j hj => absurd hj (by simp)⟩
  | cons g gs ih =>
    intro i s hlen
    have hi : i < p2.length := by simp at hlen; omega
    have hget : p2.get? i = some p2[i] := by
      rw [List.get?_eq_getElem?, List.getElem?_eq_getElem hi]
    obtain ⟨c, s2, hrec, hclen, hcpos⟩ :=
      ih (i + 1) ⟨s.floats.tail, s.idxs⟩ (by simp at hlen ⊢; omega)
    by_cases hcond : s.floats.headD 0 < ratio
    · refine ⟨g :: c, s2, ?_, by simp [hclen], ?_⟩
      · simp only [uniformGo, nextFloat]
        rw [if_pos hcond, hrec]
      · intro j hj
        cases j with
        | zero => left; rfl
        | succ j =>
          rcases hcpos j (by simp at hj ⊢; omega) with h | h
          · left; simpa using h
          · right
            rw [show i + (j + 1) = i + 1 + j by omega]
            simpa using h
    · refine ⟨p2[i] :: c, s2, ?_, by simp [hclen], ?_⟩
      · simp only [uniformGo, nextFloat]
        rw [if_neg hcond, hget, hrec]
      · intro j hj
        cases j with
        | zero => right; simp [hget, Nat.add_zero]
        | succ j =>
          rcases hcpos j (by simp at hj ⊢; omega) with h | h
          · left; simpa using h
          · right
            rw [show i + (j + 1) = i + 1 + j by omega]
            simpa using h

/-- C9: with `mixing_ratio = 0.0` every `random.random()` draw (which is
non-negative) fails the `< 0.0` test, so every gene comes from parent two:
for every draw stream and every list of equal-length parent pairs, uniform
crossover returns exactly the list of second parents. -/
theorem C9_uniform_ratio_zero_gives_parent_two (pairs : List Parents)
    (s : RState) (hlen : ∀ p ∈ pairs, p.1.length = p.2.length)
    (hfl : ∀ r ∈ s.floats, 0 ≤ r) :
    ∃ s1, uniform_crossover pairs 0 s = .ok (pairs.map Prod.snd, s1) := by
  induction pairs generalizing s with
  | nil => exact ⟨s, rfl⟩
  | cons p rest ih =>
    have h1 : _uniform_crossover_one_pair p 0 s
        = .ok (p.2, ⟨s.floats.drop p.1.length, s.idxs⟩) := by
      have := uniformGo_zero p.2 p.1 0 s hfl
        (by simpa using hlen p (by simp))
      simpa [_uniform_crossover_one_pair] using this
    have htl : ∀ r ∈ (s.floats.drop p.1.length), 0 ≤ r :=
      fun r hr => hfl r (List.drop_subset _ _ hr)
    obtain ⟨s2, h2⟩ := ih (fun q hq => hlen q (by simp [hq]))
      (s := ⟨s.floats.drop p.1.length, s.idxs⟩) htl
    exact ⟨s2, by simp [uniform_crossover, h1, h2]⟩

/-- Witness for C9 at a concrete pair and draw stream. -/
theorem C9_uniform_ratio_zero_gives_parent_two_witness :
    ∃ s1, uniform_crossover [([1, 1], [0, 1])] 0 ⟨[1 / 2], []⟩
      = .ok ([[0, 1]], s1) :=
  C9_uniform_ratio_zero_gives_parent_two [([1, 1], [0, 1])] ⟨[1 / 2], []⟩
    (by decide) (by norm_num)

/-- C10: for equal-length parents, every child of
`_uniform_crossover_one_pair` is produced without error, has the parents'
length, and each of its genes equals the corresponding gene of parent one or
of parent two. -/
theorem C10_uniform_child_genes_from_parents (pair : Parents) (ratio : ℚ)
    (s : RState) (h : pair.1.length = pair.2.length) :
    ∃ child s1, _uniform_crossover_one_pair pair ratio s
        = .ok (child, s1) ∧
      child.length = pair.1.length ∧
      ∀ j, j < child.length →
        (child.get? j = pair.1.get? j ∨ child.get? j = pair.2.get? j) := by
  obtain ⟨c, s1, hc, hlen2, hpos⟩ :=
    uniformGo_spec pair.2 ratio pair.1 0 s (by omega)
  exact ⟨c, s1, by simpa [_uniform_crossover_one_pair] using hc, hlen2,
    fun j hj => by simpa using hpos j (by omega)⟩

/-- Witness for C10 at a concrete pair, ratio and draw stream. -/
theorem C10_uniform_child_genes_from_parents_witness :
    ∃ child s1,
      _uniform_crossover_one_pair ([1, 0], [0, 1]) (1 / 2) ⟨[0, 3 / 4], []⟩
        = .ok (child, s1) ∧
      child.length = ([1, 0] : Chromosome).length ∧
      ∀ j, j < child.length →
        (child.get? j = ([1, 0] : Chromosome).get? j ∨
          child.get? j = ([0, 1] : Chromosome).get? j) :=
  C10_uniform_child_genes_from_parents ([1, 0], [0, 1]) (1 / 2)
    ⟨[0, 3 / 4], []⟩ (by decide)


lemma accumFitness_length (a : ℚ) (l : List EvalChrom) :
    (accumFitness a l).length = l.length := by
  induction l generalizing a with
  | nil => rfl
  | cons x xs ih => simp [accumFitness, ih]

lemma accumFitness_getLast? (l : List EvalChrom) (hl : l ≠ []) :
    ∀ a : ℚ, (accumFitness a l).getLast?.map Prod.snd
      = some (a + (l.map Prod.snd).sum) := by
  induction l with
  | nil => exact absurd rfl hl
  | cons x xs ih =>
    intro a
    cases xs with
    | nil => simp [accumFitness]
    | cons z zs =>
      have h2 := ih (by simp) (a + x.2)
      simp only [accumFitness] at h2 ⊢
      rw [List.getLast?_cons_cons]
      rw [h2]
      simp
      ring

lemma scanFrom_ok (ruler : List EvalChrom) (target : ℚ) :
    ∀ (n ci : ℕ), ruler.length - ci ≤ n →
    ∀ j : ℕ, ci ≤ j → ∀ e, ruler.get? j = some e → target ≤ e.2 →
    ∃ ci1 entry, scanFrom ruler target ci = .ok (ci1, entry) ∧
      ci1 < ruler.length := by
  intro n
  induction n with
  | zero =>
    intro ci hn j hcij e hget _
    have hj : j < ruler.length := (List.get?_eq_some.mp hget).1
    omega
  | succ n ih =>
    intro ci hn j hcij e hget htar
    have hj : j < ruler.length := (List.get?_eq_some.mp hget).1
    have hci : ci < ruler.length := by omega
    rw [scanFrom]
    split
    · rename_i heq
      rw [List.get?_eq_none] at heq
      omega
    · rename_i entry heq
      by_cases hlt : entry.2 < target
      · rw [if_pos hlt]
        have hne : ci ≠ j := by
          intro h
          subst h
          rw [hget] at heq
          injection heq with h2
          subst h2
          exact absurd htar (not_le.mpr hlt)
        exact ih (ci + 1) (by omega) j (by omega) e hget htar
      · rw [if_neg hlt]
        exact ⟨ci, entry, rfl, hci⟩

lemma susLoop_ok (ruler : List EvalChrom) (d : ℚ) (lastE : EvalChrom)
    (hlast : ruler.get? (ruler.length - 1) = some lastE) :
    ∀ (n : ℕ) (target : ℚ) (ci : ℕ), ci < ruler.length →
      (∀ m : ℕ, m < n → target + m * d ≤ lastE.2) →
      ∃ sample, susLoop ruler d n target ci = .ok sample ∧
        sample.length = n := by
  intro n
  induction n with
  | zero => intro target ci _ _; exact ⟨[], rfl, rfl⟩
  | succ n ih =>
    intro target ci hci hm
    have htar0 : target ≤ lastE.2 := by
      have := hm 0 (by omega)
      simpa using this
    obtain ⟨ci1, entry, hscan, hci1⟩ :=
      scanFrom_ok ruler target (ruler.length - ci) ci (by omega)
        (ruler.length - 1) (by omega) lastE hlast htar0
    obtain ⟨sample, hrest, hlen⟩ := ih (target + d) ci1 hci1 (fun m hmn => by
      have h2 := hm (m + 1) (by omega)
      push_cast at h2 ⊢
      linarith)
    refine ⟨entry.1 :: sample, ?_, by simp [hlen]⟩
    simp only [susLoop]
    rw [hscan]
    simp only [hrest]

lemma shuffleAux_spec [Inhabited α] :
    ∀ (i : ℕ) (l : List α) (s : RState),
      ((shuffleAux i l s).1.length = l.length) ∧
      (shuffleAux i l s).2.floats = s.floats := by
  intro i
  induction i with
  | zero => intro l s; exact ⟨rfl, rfl⟩
  | succ i ih =>
    intro l s
    have h2 := ih (listSwap l (i + 1) ((nextIdx s).1 % (i + 2))) (nextIdx s).2
    simp only [shuffleAux]
    constructor
    · rw [h2.1]; simp [listSwap]
    · rw [h2.2]; simp [nextIdx]

lemma pyShuffle_spec [Inhabited α] (l : List α) (s : RState) :
    ((pyShuffle l s).1.length = l.length) ∧
    (pyShuffle l s).2.floats = s.floats := by
  rcases h : l.length with _ | n
  · simp [pyShuffle, h]
  · simp only [pyShuffle, h]
    rw [← h]
    exact shuffleAux_spec n l s

lemma sus_sample_ok (ruler : List EvalChrom) (d : ℚ) (k : ℤ)
    (lastE : EvalChrom) (hlast : ruler.get? (ruler.length - 1) = some lastE)
    (hruler : ruler ≠ []) (s : RState)
    (hm : ∀ m : ℕ, m < k.toNat → s.floats.headD 0 * d + m * d ≤ lastE.2) :
    ∃ sample s1, _stochastic_universal_sample ruler d k s
        = .ok (sample, s1) ∧ sample.length = k.toNat ∧
      s1.floats = s.floats.tail := by
  obtain ⟨sample, hloop, hlen⟩ := susLoop_ok ruler d lastE hlast k.toNat
    (s.floats.headD 0 * d) 0 (by cases ruler with
      | nil => exact absurd rfl hruler
      | cons x xs => simp) hm
  have hsh := pyShuffle_spec sample (⟨s.floats.tail, s.idxs⟩ : RState)
  refine ⟨(pyShuffle sample ⟨s.floats.tail, s.idxs⟩).1,
    (pyShuffle sample ⟨s.floats.tail, s.idxs⟩).2, ?_, ?_, ?_⟩
  · simp only [_stochastic_universal_sample, nextFloat]
    rw [hloop]
  · rw [hsh.1, hlen]
  · rw [hsh.2]

lemma headD_bounds (l : List ℚ) (h : ∀ r ∈ l, 0 ≤ r ∧ r < 1) :
    0 ≤ l.headD 0 ∧ l.headD 0 < 1 := by
  cases l with
  | nil => norm_num
  | cons a t => exact h a (by simp)

/-- C5: over a non-empty evaluated population with positive total fitness
and `num_elites` below the population size (and a draw stream whose
`random.random()` values lie in `[0,1)`, as Python guarantees), the final
cumulative value of the constructed fitness ruler equals the sum of all
input fitness scores, and stochastic universal sampling succeeds with each
of its two drawn samples containing exactly
`len(evaluated_population) - num_elites` members. -/
theorem C5_sus_ruler_total_and_sample_sizes (pop : List EvalChrom) (ne : ℕ) (s : RState)
    (hpop : pop ≠ []) (hne : ne < pop.length)
    (hsum : 0 < (pop.map Prod.snd).sum)
    (hfl : ∀ r ∈ s.floats, 0 ≤ r ∧ r < 1) :
    ((_calculate_accumulated_fitness pop).getLast?.map Prod.snd
        = some ((pop.map Prod.snd).sum)) ∧
    ∃ (s1 s2 : List Chromosome) (st : RState),
      stochastic_universal_sampling_selection pop ne s
        = .ok (s1.zip s2, st) ∧
      s1.length = pop.length - ne ∧ s2.length = pop.length - ne := by
  have hlast0 : (_calculate_accumulated_fitness pop).getLast?.map Prod.snd
      = some ((pop.map Prod.snd).sum) := by
    have := accumFitness_getLast? pop hpop 0
    simpa [_calculate_accumulated_fitness] using this
  refine ⟨hlast0, ?_⟩
  have hrlen : (_calculate_accumulated_fitness pop).length = pop.length :=
    accumFitness_length 0 pop
  have hrne : _calculate_accumulated_fitness pop ≠ [] := by
    intro h
    rw [h] at hrlen
    exact hpop (List.length_eq_zero.mp hrlen.symm)
  obtain ⟨lastE, hgetLast, hlastE⟩ := Option.map_eq_some'.mp hlast0
  have hlastget : (_calculate_accumulated_fitness pop).get?
      ((_calculate_accumulated_fitness pop).length - 1) = some lastE := by
    rw [List.get?_eq_getElem?, ← List.getLast?_eq_getElem?]
    exact hgetLast
  have hk0 : ((pop.length : ℤ) - (ne : ℤ)) ≠ 0 := by omega
  have hkN : ((pop.length : ℤ) - (ne : ℤ)).toNat = pop.length - ne :=
    Int.toNat_sub _ _
  have hNQ : ((((pop.length : ℤ) - (ne : ℤ)) : ℤ) : ℚ)
      = ((pop.length - ne : ℕ) : ℚ) := by
    push_cast [Nat.cast_sub (le_of_lt hne)]
    ring
  have hNpos : (0 : ℚ) < ((pop.length - ne : ℕ) : ℚ) := by
    have h1 : 0 < pop.length - ne := by omega
    exact_mod_cast h1
  have hbound : ∀ r : ℚ, 0 ≤ r → r < 1 →
      ∀ m : ℕ, m < ((pop.length : ℤ) - (ne : ℤ)).toNat →
      r * (lastE.2 / ((((pop.length : ℤ) - (ne : ℤ)) : ℤ) : ℚ)) +
        m * (lastE.2 / ((((pop.length : ℤ) - (ne : ℤ)) : ℤ) : ℚ))
        ≤ lastE.2 := by
    intro r hr0 hr1 m hmN
    rw [hkN] at hmN
    rw [hNQ, hlastE]
    have hDpos : 0 < (pop.map Prod.snd).sum / ((pop.length - ne : ℕ) : ℚ) :=
      div_pos hsum hNpos
    have hm1 : m + 1 ≤ pop.length - ne := by omega
    have hmle : (m : ℚ) + 1 ≤ ((pop.length - ne : ℕ) : ℚ) := by
      exact_mod_cast hm1
    have hNne : ((pop.length - ne : ℕ) : ℚ) ≠ 0 := ne_of_gt hNpos
    calc r * ((pop.map Prod.snd).sum / ((pop.length - ne : ℕ) : ℚ)) +
          m * ((pop.map Prod.snd).sum / ((pop.length - ne : ℕ) : ℚ))
        = (r + m) * ((pop.map Prod.snd).sum / ((pop.length - ne : ℕ) : ℚ)) := by
          ring
      _ ≤ ((pop.length - ne : ℕ) : ℚ) *
          ((pop.map Prod.snd).sum / ((pop.length - ne : ℕ) : ℚ)) :=
          mul_le_mul_of_nonneg_right (by linarith) (le_of_lt hDpos)
      _ = (pop.map Prod.snd).sum := by field_simp
  rw [← hlastE] at hsum
  obtain ⟨h01, h02⟩ := headD_bounds s.floats hfl
  obtain ⟨sm1, st1, hs1, hlen1, hflo1⟩ :=
    sus_sample_ok (_calculate_accumulated_fitness pop)
      (lastE.2 / ((((pop.length : ℤ) - (ne : ℤ)) : ℤ) : ℚ))
      ((pop.length : ℤ) - (ne : ℤ)) lastE hlastget hrne s
      (fun m hm => hbound _ h01 h02 m hm)
  have hfl1 : ∀ r ∈ st1.floats, 0 ≤ r ∧ r < 1 := by
    rw [hflo1]
    exact fun r hr => hfl r (List.tail_subset _ hr)
  obtain ⟨h11, h12⟩ := headD_bounds st1.floats hfl1
  obtain ⟨sm2, st2, hs2, hlen2, hflo2⟩ :=
    sus_sample_ok (_calculate_accumulated_fitness pop)
      (lastE.2 / ((((pop.length : ℤ) - (ne : ℤ)) : ℤ) : ℚ))
      ((pop.length : ℤ) - (ne : ℤ)) lastE hlastget hrne st1
      (fun m hm => hbound _ h11 h12 m hm)
  refine ⟨sm1, sm2, st2, ?_, by rw [hlen1, hkN], by rw [hlen2, hkN]⟩
  simp only [stochastic_universal_sampling_selection]
  simp only [hgetLast]
  rw [if_neg hk0]
  simp only [hs1]
  simp only [hs2]

/-- Witness for C5 at a concrete population, elite count and draw stream. -/
theorem C5_sus_ruler_total_and_sample_sizes_witness :
    ((_calculate_accumulated_fitness twoPop).getLast?.map Prod.snd
        = some ((twoPop.map Prod.snd).sum)) ∧
    ∃ (s1 s2 : List Chromosome) (st : RState),
      stochastic_universal_sampling_selection twoPop 1 emptyDraws
        = .ok (s1.zip s2, st) ∧
      s1.length = twoPop.length - 1 ∧ s2.length = twoPop.length - 1 :=
  C5_sus_ruler_total_and_sample_sizes twoPop 1 emptyDraws (by decide)
    (by decide) (by norm_num [twoPop]) (by simp [emptyDraws])

end Mitosis
